import Mathlib

/-!
# merge_outputs/new_merge_parallel.cpp

A shallow embedding of the merge tool: a `std::string` is a list of characters,
`long long` and `int` values are mathematical integers with the range checks
that `std::stoll` and `std::stoi` perform made explicit, and an exception thrown
by a library call is an `Except` error.
-/

namespace MergeOutputs

/-! ## Constants -/

/-- A `std::string`. -/
abbrev Line := List Char

def TYPE_COLUMN : Nat := 2

def TIMESTAMP_COLUMN : Nat := 3

/-- The constant `1e18` converted to `long long`. -/
def MAX_TIMESTAMP : Int := 1000000000000000000

def MIN_TIMESTAMP : Int := 1000

def EXPECTED_HEADER : Line := "ASIC\tCH\tTYPE\tTIMESTAMP_LSB\tPULSE_WIDTH_LSB".toList

def LLONG_MAX : Int := 9223372036854775807

def LLONG_MIN : Int := -9223372036854775808

def INT_MAX : Int := 2147483647

def INT_MIN : Int := -2147483648

/-! ## Library functions used by the program -/

/-- The tokens that the loop `while (std::getline(stream, token, delim))` reads from a
stream holding `s`: a token ends at the delimiter or at the end of the stream, and the loop
stops when a call extracts no character at all, so a stream that is empty or ends in the
delimiter yields no final empty token. -/
def getlines (delim : Char) : List Char → List (List Char)
  | [] => []
  | c :: cs =>
    if c = delim then [] :: getlines delim cs
    else
      match getlines delim cs with
      | [] => [[c]]
      | token :: rest => (c :: token) :: rest

/-- The `isspace` of the C locale. -/
def isspace (c : Char) : Bool :=
  c = ' ' || c = '\t' || c = '\n' || c = Char.ofNat 11 || c = Char.ofNat 12 || c = '\r'

def isdigit (c : Char) : Bool :=
  48 ≤ c.toNat && c.toNat ≤ 57

/-- The value of a run of decimal digits. -/
def decimalValue (ds : List Char) : Nat :=
  ds.foldl (fun acc c => 10 * acc + (c.toNat - 48)) 0

/-- The optional sign that `strtol` accepts: whether the number is negated, and the rest. -/
def readSign : List Char → Bool × List Char
  | [] => (false, [])
  | c :: cs => if c = '-' then (true, cs) else if c = '+' then (false, cs) else (false, c :: cs)

/-- The conversion of `strtol` and `strtoll` in base 10, before any range check: leading
white space is skipped, then an optional sign and the longest run of digits are read, and
what follows the digits is ignored. The result is `none` when there is no digit to read. -/
def strtoBase10 (s : List Char) : Option Int :=
  let signed := readSign (s.dropWhile isspace)
  let ds := signed.2.takeWhile isdigit
  if ds = [] then none
  else some (if signed.1 then -(decimalValue ds : Int) else (decimalValue ds : Int))

/-- The exceptions that `std::stoi` and `std::stoll` throw. -/
inductive StdException where
  | invalid_argument
  | out_of_range
  deriving DecidableEq, Repr

/-- Model of `std::stoll(token)`. -/
def stoll (token : List Char) : Except StdException Int :=
  match strtoBase10 token with
  | none => .error .invalid_argument
  | some v => if LLONG_MIN ≤ v ∧ v ≤ LLONG_MAX then .ok v else .error .out_of_range

/-- Model of `std::stoi(token)`. -/
def stoi (token : List Char) : Except StdException Int :=
  match strtoBase10 token with
  | none => .error .invalid_argument
  | some v => if INT_MIN ≤ v ∧ v ≤ INT_MAX then .ok v else .error .out_of_range

/-- Model of `s.find(pat)` searching from the character at index `pos` of the original
string, of which `s` is what remains; `none` is `std::string::npos`. -/
def findFrom (pat : List Char) : List Char → Nat → Option Nat
  | [], pos => if pat = [] then some pos else none
  | c :: cs, pos => if pat.isPrefixOf (c :: cs) then some pos else findFrom pat cs (pos + 1)

/-- Model of `s.find(pat)`. -/
def find (s pat : List Char) : Option Nat :=
  findFrom pat s 0

/-! ## The program -/

/-- The loop of `extractTimestamp` over the tokens still to be read. -/
def extractTimestampLoop : List (List Char) → Nat → Int
  | [], _ => -1
  | token :: rest, colIndex =>
    if colIndex = TIMESTAMP_COLUMN then
      match stoll token with
      | .ok v => v
      | .error _ => -1
    else extractTimestampLoop rest (colIndex + 1)

def extractTimestamp (line : Line) : Int :=
  extractTimestampLoop (getlines '\t' line) 0

/-- The loop of `isValidLine` over the tokens still to be read. -/
def isValidLineLoop : List (List Char) → Nat → Bool
  | [], _ => false
  | token :: rest, colIndex =>
    if colIndex = TYPE_COLUMN then
      match stoi token with
      | .ok val => decide (val > 2)
      | .error _ => false
    else isValidLineLoop rest (colIndex + 1)

def isValidLine (line : Line) : Bool :=
  isValidLineLoop (getlines '\t' line) 0

/-- The loop of `processFile` over the lines still to be read from the file. -/
def processLines : List Line → List Line
  | [] => []
  | line :: rest =>
    if line = EXPECTED_HEADER then processLines rest
    else
      let ts := extractTimestamp line
      if ((find line "ASIC".toList).isSome || isValidLine line) &&
          decide (ts ≥ MIN_TIMESTAMP) && decide (ts ≤ MAX_TIMESTAMP) then
        line :: processLines rest
      else processLines rest

/-- Model of `processFile`: the argument is the content of the file at `filepath`, or `none`
when the file cannot be opened. -/
def processFile (file : Option (List Char)) : List Line :=
  match file with
  | none => []
  | some content => processLines (getlines '\n' content)

/-- The loop of `processFile` with the test `line == EXPECTED_HEADER` taken out, everything
else as in `processLines`. -/
def processLinesWithoutHeaderTest : List Line → List Line
  | [] => []
  | line :: rest =>
    let ts := extractTimestamp line
    if ((find line "ASIC".toList).isSome || isValidLine line) &&
        decide (ts ≥ MIN_TIMESTAMP) && decide (ts ≤ MAX_TIMESTAMP) then
      line :: processLinesWithoutHeaderTest rest
    else processLinesWithoutHeaderTest rest

/-- The function `processFile` with the test `line == EXPECTED_HEADER` taken out. -/
def processFileWithoutHeaderTest (file : Option (List Char)) : List Line :=
  match file with
  | none => []
  | some content => processLinesWithoutHeaderTest (getlines '\n' content)

/-- What the sort of the library requires of its comparator: a strict weak ordering. -/
structure StrictWeakOrdering (comp : Line → Line → Bool) : Prop where
  irrefl : ∀ a, comp a a = false
  trans : ∀ a b c, comp a b = true → comp b c = true → comp a c = true
  incomp_trans : ∀ a b c, comp a b = false → comp b a = false → comp b c = false →
    comp c b = false → comp a c = false ∧ comp c a = false

/-- The sort of the library, `__gnu_parallel::sort(first, last, comp)`, taken as a parameter
of the program with its contract: the result is a rearrangement of the input, and when the
comparator is a strict weak ordering no element of the result is less than an earlier one.
The contract says nothing on the relative order of equivalent elements. -/
structure SortAlgorithm where
  sort : (Line → Line → Bool) → List Line → List Line
  perm : ∀ comp l, (sort comp l).Perm l
  sorted : ∀ comp, StrictWeakOrdering comp →
    ∀ l, (sort comp l).Pairwise (fun a b => comp b a = false)

/-- An entry of the directory that `std::filesystem::directory_iterator(".")` lists; the
content is `none` for a file that cannot be opened for reading. -/
structure DirEntry where
  filename : List Char
  is_regular_file : Bool
  content : Option (List Char)

/-- How the output file behaves when `std::ofstream out(outputFileName)` is used: it cannot
be created, it stores only the first `n` characters before a write fails, or it stores all
that is written. -/
inductive OutputFile where
  | unopenable
  | failsAfter (n : Nat)
  | writable

/-- What ends up stored in the output file when `text` is inserted in the stream: a stream
that failed ignores the insertions that follow, and nothing in the program looks at the
state of the stream. -/
def ofstreamStore (out : OutputFile) (text : List Char) : Option (List Char) :=
  match out with
  | .unopenable => none
  | .failsAfter n => some (text.take n)
  | .writable => some text

/-- What one run of `mergeFilesParallel` leaves behind. -/
structure MergeResult where
  /-- The vector `allLines` after the sort, in the order the writer goes through it. -/
  allLines : List Line
  /-- The characters stored in the output file, `none` when it could not be created. -/
  output : Option (List Char)
  /-- The characters written to `std::cout`. -/
  stdout : List Char

/-- The test of the enumeration loop of `mergeFilesParallel` on a directory entry. -/
def selects (pfx : List Char) (entry : DirEntry) : Bool :=
  entry.is_regular_file && decide (find entry.filename pfx = some 0)

/-- The loop that collects the results of the futures, in the order of `files`. -/
def collectResults : List (List Line) → List Line
  | [] => []
  | part :: rest => part ++ collectResults rest

/-- The loop of the writer: `out << line << "\n"` for each line. -/
def writeLines : List Line → List Char
  | [] => []
  | line :: rest => line ++ '\n' :: writeLines rest

/-- The comparator that `mergeFilesParallel` passes to the sort. -/
def byTimestamp (a b : Line) : Bool :=
  decide (extractTimestamp a < extractTimestamp b)

/-- The message that `mergeFilesParallel` prints at its end. -/
def doneMessage (size : Nat) (outputFileName : List Char) : List Char :=
  "Parallel merge done: ".toList ++ Nat.toDigits 10 size ++ " lines written to '".toList ++
    outputFileName ++ "'\n".toList

/-- Model of `mergeFilesParallel(prefix, outputFileName)` run in a directory whose entries
are enumerated in the order of `directory`, with the sort `S` and the output file `out`. -/
def mergeFilesParallel (S : SortAlgorithm) (directory : List DirEntry) (out : OutputFile)
    (pfx outputFileName : List Char) : MergeResult :=
  let files := directory.filter (selects pfx)
  let futures := files.map (fun file => processFile file.content)
  let allLines := S.sort byTimestamp (collectResults futures)
  { allLines := allLines
    output := ofstreamStore out (EXPECTED_HEADER ++ '\n' :: writeLines allLines)
    stdout := doneMessage allLines.length outputFileName }

/-- A sort that fulfils the contract: insertion sort, which keeps equivalent elements in
their order of arrival. -/
def insertionSortAlgorithm : SortAlgorithm where
  sort comp l := l.insertionSort (fun a b => comp b a = false)
  perm comp l := List.perm_insertionSort _ l
  sorted comp h l := by
    haveI : IsTotal Line (fun a b => comp b a = false) := ⟨fun a b => by
      cases hba : comp b a
      · exact Or.inl rfl
      · right
        cases hab : comp a b
        · rfl
        · have := h.trans a b a hab hba
          rw [h.irrefl a] at this
          cases this⟩
    haveI : IsTrans Line (fun a b => comp b a = false) := ⟨fun a b c hab hbc => by
      show comp c a = false
      have hab1 : comp b a = false := hab
      have hbc1 : comp c b = false := hbc
      cases hca : comp c a
      · rfl
      · exfalso
        have h1 : comp b c = false := by
          cases hb : comp b c
          · rfl
          · have := h.trans b c a hb hca
            rw [hab1] at this
            cases this
        have h2 : comp a b = false := by
          cases hb : comp a b
          · rfl
          · have := h.trans c a b hca hb
            rw [hbc1] at this
            cases this
        have := (h.incomp_trans a b c h2 hab1 h1 hbc1).2
        rw [hca] at this
        cases this⟩
    exact List.sorted_insertionSort _ l

/-- Another sort that fulfils the contract: insertion sort of the reversed input, which
reverses the order of arrival of equivalent elements. -/
def reverseInsertionSortAlgorithm : SortAlgorithm where
  sort comp l := insertionSortAlgorithm.sort comp l.reverse
  perm comp l := (insertionSortAlgorithm.perm comp l.reverse).trans (List.reverse_perm l)
  sorted comp h l := insertionSortAlgorithm.sorted comp h l.reverse

/-! ## The sequential sort of the library

The functions of `bits/stl_algo.h` of libstdc++ that `std::sort` is made of, over a vector
given as a list. -/

section StdSort
variable {α : Type} [Inhabited α]

/-- Model of `std::iter_swap` on the positions `i` and `j` of a vector. -/
def iterSwap (v : List α) (i j : Nat) : List α :=
  (v.set i (v.getD j default)).set j (v.getD i default)

/-- Model of `std::__move_median_to_first(result, a, b, c, comp)`. -/
def moveMedianToFirst (comp : α → α → Bool) (v : List α) (result a b c : Nat) : List α :=
  if comp (v.getD a default) (v.getD b default) then
    if comp (v.getD b default) (v.getD c default) then iterSwap v result b
    else if comp (v.getD a default) (v.getD c default) then iterSwap v result c
    else iterSwap v result a
  else if comp (v.getD a default) (v.getD c default) then iterSwap v result a
  else if comp (v.getD b default) (v.getD c default) then iterSwap v result c
  else iterSwap v result b

/-- The loop `while (comp(first, pivot)) ++first;` of `std::__unguarded_partition`, run for
at most `fuel` steps. -/
def advanceFirst (comp : α → α → Bool) (v : List α) (pivot : Nat) : Nat → Nat → Nat
  | 0, first => first
  | fuel + 1, first =>
    if comp (v.getD first default) (v.getD pivot default) then
      advanceFirst comp v pivot fuel (first + 1)
    else first

/-- The loop `while (comp(pivot, last)) --last;` of `std::__unguarded_partition`, run for at
most `fuel` steps. -/
def retreatLast (comp : α → α → Bool) (v : List α) (pivot : Nat) : Nat → Nat → Nat
  | 0, last => last
  | fuel + 1, last =>
    if comp (v.getD pivot default) (v.getD last default) then
      retreatLast comp v pivot fuel (last - 1)
    else last

/-- Model of `std::__unguarded_partition(first, last, pivot, comp)`: the vector after the
swaps and the position returned; `fuel` bounds the turns of the outer loop. -/
def unguardedPartition (comp : α → α → Bool) :
    Nat → List α → Nat → Nat → Nat → List α × Nat
  | 0, v, first, _, _ => (v, first)
  | fuel + 1, v, first, last, pivot =>
    let first1 := advanceFirst comp v pivot v.length first
    let last1 := retreatLast comp v pivot v.length (last - 1)
    if first1 < last1 then
      unguardedPartition comp fuel (iterSwap v first1 last1) (first1 + 1) last1 pivot
    else (v, first1)

/-- Model of `std::__unguarded_partition_pivot(first, last, comp)`. -/
def unguardedPartitionPivot (comp : α → α → Bool) (v : List α) (first last : Nat) :
    List α × Nat :=
  let mid := first + (last - first) / 2
  unguardedPartition comp v.length
    (moveMedianToFirst comp v first (first + 1) mid (last - 1)) (first + 1) last first

/-- Model of `std::__introsort_loop(first, last, depth_limit, comp)`, by recursion on the
depth limit; the result is `none` when the depth limit is used up on a range of more than 16
elements, where the library goes over to heap sort, which is not modelled. -/
def introsortLoop (comp : α → α → Bool) : Nat → List α → Nat → Nat → Option (List α)
  | 0, v, first, last => if last - first > 16 then none else some v
  | depth + 1, v, first, last =>
    if last - first > 16 then
      let cut := unguardedPartitionPivot comp v first last
      match introsortLoop comp depth cut.1 cut.2 last with
      | none => none
      | some v2 => introsortLoop comp depth v2 first cut.2
    else some v

/-- Model of `std::__unguarded_linear_insert`: `val` is inserted in the sorted range before
it, given from its last element to its first one, and goes down while it is less than the
element before it. -/
def unguardedLinearInsert (comp : α → α → Bool) (val : α) : List α → List α
  | [] => [val]
  | x :: before => if comp val x then x :: unguardedLinearInsert comp val before
    else val :: x :: before

/-- The loop of `std::__insertion_sort` over the elements still to insert; the range sorted
so far is given from its last element to its first one. -/
def insertionSortLoop (comp : α → α → Bool) : List α → List α → List α
  | sortedRev, [] => sortedRev
  | sortedRev, x :: rest =>
    if comp x (sortedRev.getLastD default) then insertionSortLoop comp (sortedRev ++ [x]) rest
    else insertionSortLoop comp (unguardedLinearInsert comp x sortedRev) rest

/-- The loop of `std::__unguarded_insertion_sort` over the elements still to insert. -/
def unguardedInsertionSortLoop (comp : α → α → Bool) : List α → List α → List α
  | sortedRev, [] => sortedRev
  | sortedRev, x :: rest =>
    unguardedInsertionSortLoop comp (unguardedLinearInsert comp x sortedRev) rest

/-- Model of `std::__final_insertion_sort(first, last, comp)` on a whole vector. -/
def finalInsertionSort (comp : α → α → Bool) (v : List α) : List α :=
  match v with
  | [] => []
  | x :: rest =>
    if v.length > 16 then
      (unguardedInsertionSortLoop comp (insertionSortLoop comp [x] (rest.take 15))
        (rest.drop 15)).reverse
    else (insertionSortLoop comp [x] rest).reverse

/-- The loop behind `std::__lg`, which halves `n` until it is below 2, run for at most `fuel`
steps. -/
def lgLoop : Nat → Nat → Nat
  | 0, _ => 0
  | fuel + 1, n => if n < 2 then 0 else lgLoop fuel (n / 2) + 1

/-- Model of `std::__lg(n)`, the integer part of the logarithm of `n` in base 2. -/
def lg (n : Nat) : Nat :=
  lgLoop n n

/-- Model of the sequential `std::sort(first, last, comp)` of libstdc++ on a whole vector;
`none` when the heap sort branch would be taken. -/
def stdSort (comp : α → α → Bool) (v : List α) : Option (List α) :=
  match v with
  | [] => some []
  | _ :: _ =>
    match introsortLoop comp (lg v.length * 2) v 0 v.length with
    | none => none
    | some v1 => some (finalInsertionSort comp v1)

end StdSort

/-- What `__gnu_parallel::sort` of libstdc++ does: a vector of fewer than 1000 elements (the
setting `sort_minimal_n`) is handed to the sequential `std::sort`, modelled by `stdSort`.
Where this model does not reach (1000 elements or more, the heap sort branch), and where
its result is not a sorted rearrangement of the input (which the library can produce only
for a comparator that breaks its precondition), insertion sort stands in. -/
def libstdcxxSort (comp : Line → Line → Bool) (l : List Line) : List Line :=
  match (if l.length < 1000 then stdSort comp l else none) with
  | some r =>
    if r.Perm l ∧ r.Pairwise (fun a b => comp b a = false) then r
    else insertionSortAlgorithm.sort comp l
  | none => insertionSortAlgorithm.sort comp l

/-- The sort of libstdc++ as a sort that fulfils the contract. -/
def libstdcxxSortAlgorithm : SortAlgorithm where
  sort := libstdcxxSort
  perm comp l := by
    unfold libstdcxxSort
    split
    · split
      · rename_i h
        exact h.1
      · exact insertionSortAlgorithm.perm comp l
    · exact insertionSortAlgorithm.perm comp l
  sorted comp hc l := by
    unfold libstdcxxSort
    split
    · split
      · rename_i h
        exact h.2
      · exact insertionSortAlgorithm.sorted comp hc l
    · exact insertionSortAlgorithm.sorted comp hc l

/-! ## Vocabulary of the specification -/

/-- The fields of a delimited line in the usual sense: the pieces between consecutive
delimiters, a last empty piece included. -/
def splitFields (delim : Char) : List Char → List (List Char)
  | [] => [[]]
  | c :: cs =>
    if c = delim then [] :: splitFields delim cs
    else
      match splitFields delim cs with
      | [] => [[c]]
      | f :: fs => (c :: f) :: fs

/-- The tab-separated field of index `k` of a line, when the line has one. -/
def field (line : Line) (k : Nat) : Option (List Char) :=
  (splitFields '\t' line)[k]?

/-- The value of a token that is a base-10 integer literal as a whole: an optional sign
followed by one or more digits and nothing else. -/
def intLiteral (tok : List Char) : Option Int :=
  let signed := readSign tok
  if signed.2 ≠ [] ∧ signed.2.all isdigit = true then
    some (if signed.1 then -(decimalValue signed.2 : Int) else (decimalValue signed.2 : Int))
  else none

/-- The integer that the tab-separated field of index `k` of a line holds, when the line has
such a field and the field is an integer literal as a whole. -/
def fieldInt (line : Line) (k : Nat) : Option Int :=
  (field line k).bind intLiteral

/-- The integer that the tab-separated field of index `k` of a line begins with, after
optional white space and an optional sign, when the line has such a field and the field
begins so; what follows the digits does not count. -/
def leadingInt (line : Line) (k : Nat) : Option Int :=
  (field line k).bind strtoBase10

/-- A line of TYPE 5 with the timestamp 5000, told apart by the number in its field 0. -/
def tiedLine (n : Nat) : Line :=
  Nat.toDigits 10 n ++ "\t1\t5\t5000".toList

/-- The test that one turn of the loop of `processFile` applies to a line. -/
def keeps (line : Line) : Bool :=
  decide (line ≠ EXPECTED_HEADER) &&
    (((find line "ASIC".toList).isSome || isValidLine line) &&
      decide (extractTimestamp line ≥ MIN_TIMESTAMP) &&
      decide (extractTimestamp line ≤ MAX_TIMESTAMP))

/-- The lines of a file of the directory as `std::getline` delimits them; a file that
cannot be opened has none. -/
def fileLines (entry : DirEntry) : List Line :=
  match entry.content with
  | none => []
  | some content => getlines '\n' content

/-- The lines of the matched files that the filter accepts, file after file in the order of
the enumeration. -/
def acceptedLines (pfx : List Char) (directory : List DirEntry) : List Line :=
  ((directory.filter (selects pfx)).map (fun entry => (fileLines entry).filter keeps)).flatten

/-- The data lines of the output document of a run, as a reader of the file sees them: its
lines but the first one, the header. -/
def dataLines (r : MergeResult) : List Line :=
  match r.output with
  | none => []
  | some text => (getlines '\n' text).tail

/-- Whether the timestamp of a line fails to parse: the line has fewer than 4 fields, or
`std::stoll` throws on its field 3. -/
def timestampFails (line : Line) : Bool :=
  match field line 3 with
  | none => true
  | some tok =>
    match stoll tok with
    | .ok _ => false
    | .error _ => true

/-! ## Lemmas on the library functions -/

theorem splitFields_eq_getlines (d : Char) (s : List Char) :
    splitFields d s = getlines d s ∨ splitFields d s = getlines d s ++ [[]] := by
  induction s with
  | nil => right; rfl
  | cons c cs ih =>
    by_cases h : c = d
    · simp only [splitFields, getlines, h, if_true]
      rcases ih with ih | ih
      · left; rw [ih]
      · right; rw [ih]; rfl
    · simp only [splitFields, getlines, h, if_false]
      rcases ih with ih | ih
      · left; rw [ih]
      · rw [ih]
        cases hg : getlines d cs with
        | nil => left; rfl
        | cons t ts => right; rfl

theorem getlines_getElem?_of_field {d : Char} {s : List Char} {k : Nat} {tok : List Char}
    (h : (splitFields d s)[k]? = some tok) (hne : tok ≠ []) :
    (getlines d s)[k]? = some tok := by
  rcases splitFields_eq_getlines d s with e | e
  · rw [← e]; exact h
  · rw [e] at h
    by_cases hk : k < (getlines d s).length
    · rwa [List.getElem?_append_left hk] at h
    · have hk2 : (getlines d s).length ≤ k := Nat.le_of_not_lt hk
      rw [List.getElem?_append_right hk2] at h
      cases hm : k - (getlines d s).length with
      | zero =>
        rw [hm] at h
        simp at h
        exact absurd h.symm (by simpa using hne)
      | succ n =>
        rw [hm] at h
        simp at h

theorem field_of_getlines_getElem? {d : Char} {s : List Char} {k : Nat} {tok : List Char}
    (h : (getlines d s)[k]? = some tok) : (splitFields d s)[k]? = some tok := by
  rcases splitFields_eq_getlines d s with e | e
  · rw [e]; exact h
  · rw [e]
    have hk : k < (getlines d s).length := by
      by_contra hk
      rw [List.getElem?_eq_none (Nat.le_of_not_lt hk)] at h
      cases h
    rw [List.getElem?_append_left hk]; exact h

theorem getlines_getElem?_none_of_field {d : Char} {s : List Char} {k : Nat}
    (h : (splitFields d s)[k]? = none) : (getlines d s)[k]? = none := by
  cases hg : (getlines d s)[k]? with
  | none => rfl
  | some tok => rw [field_of_getlines_getElem? hg] at h; cases h

theorem extractTimestamp_eq (line : Line) :
    extractTimestamp line =
      match (getlines '\t' line)[3]? with
      | none => -1
      | some token =>
        match stoll token with
        | .ok v => v
        | .error _ => -1 := by
  unfold extractTimestamp
  rcases getlines '\t' line with _ | ⟨a, _ | ⟨b, _ | ⟨c, _ | ⟨d, r⟩⟩⟩⟩ <;>
    simp [extractTimestampLoop, TIMESTAMP_COLUMN]

theorem isValidLine_eq (line : Line) :
    isValidLine line =
      match (getlines '\t' line)[2]? with
      | none => false
      | some token =>
        match stoi token with
        | .ok val => decide (val > 2)
        | .error _ => false := by
  unfold isValidLine
  rcases getlines '\t' line with _ | ⟨a, _ | ⟨b, _ | ⟨c, r⟩⟩⟩ <;>
    simp [isValidLineLoop, TYPE_COLUMN]

theorem isspace_eq_false_of_isdigit {c : Char} (h : isdigit c = true) : isspace c = false := by
  simp only [isdigit, Bool.and_eq_true, decide_eq_true_eq] at h
  simp only [isspace, Bool.or_eq_false_iff, decide_eq_false_iff_not]
  refine ⟨⟨⟨⟨⟨?_, ?_⟩, ?_⟩, ?_⟩, ?_⟩, ?_⟩ <;> intro hc <;> rw [hc] at h <;>
    exact absurd h.1 (by decide)

theorem strtoBase10_of_intLiteral {tok : List Char} {v : Int} (h : intLiteral tok = some v) :
    strtoBase10 tok = some v := by
  unfold intLiteral at h
  simp only at h
  split at h
  · rename_i hc
    obtain ⟨hne, hall⟩ := hc
    have hdrop : tok.dropWhile isspace = tok := by
      cases tok with
      | nil => rfl
      | cons c cs =>
        have hsp : isspace c = false := by
          by_cases h1 : c = '-'
          · rw [h1]; decide
          · by_cases h2 : c = '+'
            · rw [h2]; decide
            · simp only [readSign, h1, h2, if_false, List.all_cons, Bool.and_eq_true] at hall
              exact isspace_eq_false_of_isdigit hall.1
        simp [List.dropWhile, hsp]
    have htake : (readSign tok).2.takeWhile isdigit = (readSign tok).2 := by
      rw [List.takeWhile_eq_self_iff]
      intro x hx
      exact List.all_eq_true.mp hall x hx
    unfold strtoBase10
    simp only [hdrop, htake, hne, if_false]
    exact h
  · cases h

theorem findFrom_isSome_iff (pat s : List Char) (pos : Nat) :
    (findFrom pat s pos).isSome = true ↔ pat <:+: s := by
  induction s generalizing pos with
  | nil =>
    by_cases h : pat = []
    · simp [findFrom, h]
    · simp [findFrom, h]
  | cons c cs ih =>
    rw [List.infix_cons_iff]
    by_cases h : pat.isPrefixOf (c :: cs) = true
    · simp only [findFrom, h, if_true, Option.isSome_some, true_iff]
      exact Or.inl (List.isPrefixOf_iff_prefix.mp h)
    · have hf : findFrom pat (c :: cs) pos = findFrom pat cs (pos + 1) := by
        simp [findFrom, h]
      rw [hf, ih]
      constructor
      · exact Or.inr
      · rintro (hp | hi)
        · exact absurd (List.isPrefixOf_iff_prefix.mpr hp) h
        · exact hi

theorem find_isSome_iff (s pat : List Char) : (find s pat).isSome = true ↔ pat <:+: s :=
  findFrom_isSome_iff pat s 0

/-! ## Lemmas on the program -/

theorem processLines_eq_filter (ls : List Line) : processLines ls = ls.filter keeps := by
  induction ls with
  | nil => rfl
  | cons line rest ih =>
    by_cases hh : line = EXPECTED_HEADER
    · simp [processLines, keeps, hh, ih, List.filter]
    · have hcond : (((find line "ASIC".toList).isSome || isValidLine line) &&
          decide (extractTimestamp line ≥ MIN_TIMESTAMP) &&
          decide (extractTimestamp line ≤ MAX_TIMESTAMP)) = keeps line := by
        simp [keeps, hh]
      simp only [processLines, hh, if_false]
      rw [hcond, ih]
      cases hk : keeps line <;> simp [List.filter, hk]

theorem mem_processFile_iff (content : List Char) (line : Line) :
    line ∈ processFile (some content) ↔ line ∈ getlines '\n' content ∧ keeps line = true := by
  simp [processFile, processLines_eq_filter, List.mem_filter]

theorem not_mem_processFile_of_not_keeps {line : Line} (h : keeps line = false)
    (file : Option (List Char)) : line ∉ processFile file := by
  cases file with
  | none => simp [processFile]
  | some content =>
    rw [mem_processFile_iff]
    rintro ⟨_, hk⟩
    rw [h] at hk
    cases hk

theorem intLiteral_ne_nil {tok : List Char} {v : Int} (h : intLiteral tok = some v) :
    tok ≠ [] := by
  rintro rfl
  simp [intLiteral, readSign] at h

theorem fieldInt_eq_some {line : Line} {k : Nat} {v : Int} (h : fieldInt line k = some v) :
    ∃ tok, (getlines '\t' line)[k]? = some tok ∧ strtoBase10 tok = some v := by
  unfold fieldInt field at h
  cases hf : (splitFields '\t' line)[k]? with
  | none => rw [hf] at h; cases h
  | some tok =>
    rw [hf] at h
    have hl : intLiteral tok = some v := h
    exact ⟨tok, getlines_getElem?_of_field hf (intLiteral_ne_nil hl),
      strtoBase10_of_intLiteral hl⟩

theorem extractTimestamp_of_fieldInt {line : Line} {v : Int} (h : fieldInt line 3 = some v)
    (hlo : LLONG_MIN ≤ v) (hhi : v ≤ LLONG_MAX) : extractTimestamp line = v := by
  obtain ⟨tok, ht, hv⟩ := fieldInt_eq_some h
  rw [extractTimestamp_eq, ht]
  simp [stoll, hv, hlo, hhi]

theorem extractTimestamp_of_fieldInt_out_of_range {line : Line} {v : Int}
    (h : fieldInt line 3 = some v) (hout : v < LLONG_MIN ∨ LLONG_MAX < v) :
    extractTimestamp line = -1 := by
  obtain ⟨tok, ht, hv⟩ := fieldInt_eq_some h
  rw [extractTimestamp_eq, ht]
  have hn : ¬(LLONG_MIN ≤ v ∧ v ≤ LLONG_MAX) := by
    rintro ⟨h1, h2⟩
    rcases hout with h3 | h3
    · exact absurd h1 (not_le.mpr h3)
    · exact absurd h2 (not_le.mpr h3)
  simp [stoll, hv, hn]

theorem isValidLine_of_fieldInt {line : Line} {v : Int} (h : fieldInt line 2 = some v)
    (hlo : INT_MIN ≤ v) (hhi : v ≤ INT_MAX) : isValidLine line = decide (v > 2) := by
  obtain ⟨tok, ht, hv⟩ := fieldInt_eq_some h
  rw [isValidLine_eq, ht]
  simp [stoi, hv, hlo, hhi]

theorem keeps_eq_false_of_timestamp {line : Line}
    (h : extractTimestamp line < 1000 ∨ 10 ^ 18 < extractTimestamp line) :
    keeps line = false := by
  unfold keeps
  rcases h with h | h
  · have : decide (extractTimestamp line ≥ MIN_TIMESTAMP) = false := by
      simp only [decide_eq_false_iff_not, MIN_TIMESTAMP, ge_iff_le, not_le]; exact h
    rw [this]; simp
  · have : decide (extractTimestamp line ≤ MAX_TIMESTAMP) = false := by
      simp only [decide_eq_false_iff_not, MAX_TIMESTAMP, not_le]
      have e : (1000000000000000000 : Int) = 10 ^ 18 := by norm_num
      rw [e]; exact h
    rw [this]; simp

theorem getlines_append_delim {d : Char} {l : List Char} (h : d ∉ l) (rest : List Char) :
    getlines d (l ++ d :: rest) = l :: getlines d rest := by
  induction l with
  | nil => simp [getlines]
  | cons c cs ih =>
    have hc : c ≠ d := fun e => h (by simp [e])
    have hcs : d ∉ cs := fun e => h (List.mem_cons_of_mem _ e)
    have e : getlines d (c :: (cs ++ d :: rest)) =
        match getlines d (cs ++ d :: rest) with
        | [] => [[c]]
        | token :: more => (c :: token) :: more := by
      simp only [getlines, hc, if_false]
    rw [List.cons_append, e, ih hcs]

theorem not_mem_of_mem_getlines {d : Char} {s : List Char} :
    ∀ {tok : List Char}, tok ∈ getlines d s → d ∉ tok := by
  induction s with
  | nil => intro tok h; simp [getlines] at h
  | cons c cs ih =>
    intro tok h
    by_cases hc : c = d
    · simp only [getlines, hc, if_true, List.mem_cons] at h
      rcases h with h | h
      · rw [h]; simp
      · exact ih h
    · simp only [getlines, hc, if_false] at h
      cases hg : getlines d cs with
      | nil =>
        rw [hg] at h
        simp only [List.mem_singleton] at h
        rw [h]
        simpa using fun e : d = c => hc e.symm
      | cons t ts =>
        rw [hg] at h
        simp only [List.mem_cons] at h
        rcases h with h | h
        · rw [h]
          have ht : d ∉ t := ih (by rw [hg]; exact List.mem_cons_self _ _)
          intro hm
          rcases List.mem_cons.mp hm with e | e
          · exact hc e.symm
          · exact ht e
        · exact ih (by rw [hg]; exact List.mem_cons_of_mem _ h)

theorem getlines_writeLines (ls : List Line) (h : ∀ l ∈ ls, '\n' ∉ l) :
    getlines '\n' (writeLines ls) = ls := by
  induction ls with
  | nil => rfl
  | cons l rest ih =>
    simp only [writeLines]
    rw [getlines_append_delim (h l (List.mem_cons_self _ _)),
      ih (fun x hx => h x (List.mem_cons_of_mem _ hx))]

theorem collectResults_eq_flatten (ps : List (List Line)) : collectResults ps = ps.flatten := by
  induction ps with
  | nil => rfl
  | cons p rest ih => simp [collectResults, ih]

theorem find_eq_zero_of_append (pfx suffix : List Char) : find (pfx ++ suffix) pfx = some 0 := by
  unfold find
  cases h : pfx ++ suffix with
  | nil =>
    have : pfx = [] := (List.append_eq_nil.mp h).1
    simp [findFrom, this]
  | cons c cs =>
    have hp : pfx.isPrefixOf (c :: cs) = true := by
      rw [List.isPrefixOf_iff_prefix, ← h]
      exact List.prefix_append _ _
    simp [findFrom, hp]

theorem byTimestamp_strictWeakOrdering : StrictWeakOrdering byTimestamp where
  irrefl a := by simp [byTimestamp]
  trans a b c := by
    simp only [byTimestamp, decide_eq_true_eq]
    exact lt_trans
  incomp_trans a b c := by
    simp only [byTimestamp, decide_eq_false_iff_not, not_lt]
    intro h1 h2 h3 h4
    exact ⟨le_trans h3 h1, le_trans h2 h4⟩

theorem processFile_eq_filter (entry : DirEntry) :
    processFile entry.content = (fileLines entry).filter keeps := by
  unfold processFile fileLines
  cases entry.content with
  | none => rfl
  | some content => exact processLines_eq_filter _

theorem allLines_perm (S : SortAlgorithm) (directory : List DirEntry) (out : OutputFile)
    (pfx outputFileName : List Char) :
    (mergeFilesParallel S directory out pfx outputFileName).allLines.Perm
      (acceptedLines pfx directory) := by
  unfold mergeFilesParallel acceptedLines
  simp only
  refine (S.perm _ _).trans ?_
  rw [collectResults_eq_flatten]
  have e : (fun file : DirEntry => processFile file.content) =
      fun entry => (fileLines entry).filter keeps := funext processFile_eq_filter
  rw [e]

theorem mem_acceptedLines {pfx : List Char} {directory : List DirEntry} {l : Line}
    (h : l ∈ acceptedLines pfx directory) : keeps l = true ∧ '\n' ∉ l := by
  unfold acceptedLines at h
  rw [List.mem_flatten] at h
  obtain ⟨p, hp, hl⟩ := h
  rw [List.mem_map] at hp
  obtain ⟨entry, _, rfl⟩ := hp
  rw [List.mem_filter] at hl
  refine ⟨hl.2, ?_⟩
  have hm := hl.1
  unfold fileLines at hm
  cases hc : entry.content with
  | none => rw [hc] at hm; simp at hm
  | some content => rw [hc] at hm; exact not_mem_of_mem_getlines hm

theorem allLines_sorted (S : SortAlgorithm) (directory : List DirEntry) (out : OutputFile)
    (pfx outputFileName : List Char) :
    (mergeFilesParallel S directory out pfx outputFileName).allLines.Pairwise
      (fun a b => extractTimestamp a ≤ extractTimestamp b) := by
  unfold mergeFilesParallel
  simp only
  refine (S.sorted byTimestamp byTimestamp_strictWeakOrdering _).imp ?_
  intro a b h
  simpa [byTimestamp] using h

theorem output_writable (S : SortAlgorithm) (directory : List DirEntry)
    (pfx outputFileName : List Char) :
    (mergeFilesParallel S directory .writable pfx outputFileName).output =
      some (EXPECTED_HEADER ++ '\n' ::
        writeLines (mergeFilesParallel S directory .writable pfx outputFileName).allLines) :=
  rfl

theorem stdout_eq (S : SortAlgorithm) (directory : List DirEntry) (out : OutputFile)
    (pfx outputFileName : List Char) :
    (mergeFilesParallel S directory out pfx outputFileName).stdout =
      doneMessage (acceptedLines pfx directory).length outputFileName := by
  rw [← (allLines_perm S directory out pfx outputFileName).length_eq]
  rfl

theorem allLines_no_newline (S : SortAlgorithm) (directory : List DirEntry) (out : OutputFile)
    (pfx outputFileName : List Char) :
    ∀ l ∈ (mergeFilesParallel S directory out pfx outputFileName).allLines, '\n' ∉ l :=
  fun _ hl =>
    (mem_acceptedLines ((allLines_perm S directory out pfx outputFileName).mem_iff.mp hl)).2

theorem getlines_document (ls : List Line) (h : ∀ l ∈ ls, '\n' ∉ l) :
    getlines '\n' (EXPECTED_HEADER ++ '\n' :: writeLines ls) = EXPECTED_HEADER :: ls := by
  rw [getlines_append_delim (by decide), getlines_writeLines ls h]

theorem dataLines_writable (S : SortAlgorithm) (directory : List DirEntry)
    (pfx outputFileName : List Char) :
    dataLines (mergeFilesParallel S directory .writable pfx outputFileName) =
      (mergeFilesParallel S directory .writable pfx outputFileName).allLines := by
  have hno : ∀ l ∈ (mergeFilesParallel S directory .writable pfx outputFileName).allLines,
      '\n' ∉ l := fun l hl =>
    (mem_acceptedLines ((allLines_perm S directory .writable pfx outputFileName).mem_iff.mp hl)).2
  have hdoc := getlines_document _ hno
  unfold dataLines
  simp only [mergeFilesParallel, ofstreamStore] at hdoc ⊢
  rw [hdoc]
  rfl

theorem acceptedLines_of_output (S : SortAlgorithm) (directory : List DirEntry)
    (pfx outputFileName pfx2 suffix : List Char) :
    acceptedLines pfx2 [⟨pfx2 ++ suffix, true,
        (mergeFilesParallel S directory .writable pfx outputFileName).output⟩] =
      (mergeFilesParallel S directory .writable pfx outputFileName).allLines := by
  have hsel : selects pfx2 ⟨pfx2 ++ suffix, true,
      (mergeFilesParallel S directory .writable pfx outputFileName).output⟩ = true := by
    simp [selects, find_eq_zero_of_append]
  have hk : keeps EXPECTED_HEADER = false := by simp [keeps]
  have hall : ∀ l ∈ (mergeFilesParallel S directory .writable pfx outputFileName).allLines,
      keeps l = true := fun l hl =>
    (mem_acceptedLines
      ((allLines_perm S directory .writable pfx outputFileName).mem_iff.mp hl)).1
  unfold acceptedLines
  rw [List.filter_cons_of_pos hsel]
  simp only [List.filter_nil, List.map_cons, List.map_nil, List.flatten_cons, List.flatten_nil,
    List.append_nil, fileLines]
  rw [output_writable]
  simp only
  rw [getlines_document _ (allLines_no_newline S directory .writable pfx outputFileName),
    List.filter_cons_of_neg (by rw [hk]; simp), List.filter_eq_self.mpr hall]

theorem findFrom_ge (pat : List Char) :
    ∀ (s : List Char) (pos p : Nat), findFrom pat s pos = some p → pos ≤ p := by
  intro s
  induction s with
  | nil =>
    intro pos p h
    by_cases hp : pat = []
    · simp only [findFrom, hp, if_true, Option.some.injEq] at h
      exact Nat.le_of_eq h
    · simp [findFrom, hp] at h
  | cons c cs ih =>
    intro pos p h
    by_cases hp : pat.isPrefixOf (c :: cs) = true
    · simp only [findFrom, hp, if_true, Option.some.injEq] at h
      exact Nat.le_of_eq h
    · have hf : findFrom pat (c :: cs) pos = findFrom pat cs (pos + 1) := by
        simp [findFrom, hp]
      rw [hf] at h
      exact Nat.le_of_succ_le (ih (pos + 1) p h)

theorem find_eq_zero_iff (s pat : List Char) : find s pat = some 0 ↔ pat <+: s := by
  unfold find
  cases s with
  | nil =>
    by_cases hp : pat = []
    · simp [findFrom, hp]
    · simp [findFrom, hp]
  | cons c cs =>
    by_cases hp : pat.isPrefixOf (c :: cs) = true
    · simp only [findFrom, hp, if_true, true_iff]
      exact List.isPrefixOf_iff_prefix.mp hp
    · have hf : findFrom pat (c :: cs) 0 = findFrom pat cs 1 := by
        simp [findFrom, hp]
      rw [hf]
      constructor
      · intro h
        exact absurd (findFrom_ge pat cs 1 0 h) (by decide)
      · intro h
        exact absurd (List.isPrefixOf_iff_prefix.mpr h) hp

theorem sort_nil (S : SortAlgorithm) (comp : Line → Line → Bool) : S.sort comp [] = [] :=
  List.Perm.eq_nil (S.perm comp [])

theorem collectResults_readable (pfx : List Char) (directory : List DirEntry) :
    collectResults ((directory.filter (selects pfx)).map (fun file => processFile file.content)) =
      collectResults
        (((directory.filter (fun e => e.content.isSome)).filter (selects pfx)).map
          (fun file => processFile file.content)) := by
  induction directory with
  | nil => rfl
  | cons e rest ih =>
    cases hc : e.content with
    | none =>
      have hr : (e :: rest).filter (fun e => e.content.isSome) =
          rest.filter (fun e => e.content.isSome) := by
        simp [List.filter_cons, hc]
      rw [hr, ← ih]
      by_cases hs : selects pfx e = true
      · rw [List.filter_cons_of_pos hs]
        simp [collectResults, hc, processFile]
      · rw [List.filter_cons_of_neg hs]
    | some content =>
      have hr : (e :: rest).filter (fun e => e.content.isSome) =
          e :: rest.filter (fun e => e.content.isSome) := by
        simp [List.filter_cons, hc]
      rw [hr]
      by_cases hs : selects pfx e = true
      · rw [List.filter_cons_of_pos hs, List.filter_cons_of_pos hs]
        simp only [List.map_cons, collectResults, ih]
      · rw [List.filter_cons_of_neg hs, List.filter_cons_of_neg hs, ih]

theorem keeps_of_fieldInt {line : Line} {v2 v3 : Int}
    (h2 : fieldInt line 2 = some v2) (hgt : 2 < v2) (hint : v2 ≤ INT_MAX)
    (h3 : fieldInt line 3 = some v3) (hmin : MIN_TIMESTAMP ≤ v3) (hmax : v3 ≤ MAX_TIMESTAMP) :
    keeps line = true := by
  have hne : line ≠ EXPECTED_HEADER := by
    rintro rfl
    have hnone : fieldInt EXPECTED_HEADER 2 = none := by decide
    rw [hnone] at h2
    cases h2
  unfold MIN_TIMESTAMP at hmin
  unfold MAX_TIMESTAMP at hmax
  have hv : isValidLine line = true := by
    rw [isValidLine_of_fieldInt h2 (by unfold INT_MIN; omega) hint]
    exact decide_eq_true hgt
  have ht : extractTimestamp line = v3 :=
    extractTimestamp_of_fieldInt h3 (by unfold LLONG_MIN; omega) (by unfold LLONG_MAX; omega)
  unfold keeps
  rw [ht, hv]
  simp [hne, MIN_TIMESTAMP, MAX_TIMESTAMP, hmin, hmax]

theorem eq_of_perm_of_timestamps {l1 l2 : List Line} (hp : l1.Perm l2)
    (h1 : l1.Pairwise (fun a b => extractTimestamp a ≤ extractTimestamp b))
    (h2 : l2.Pairwise (fun a b => extractTimestamp a < extractTimestamp b)) : l1 = l2 := by
  haveI : IsAntisymm Line (fun a b => extractTimestamp a < extractTimestamp b) :=
    ⟨fun a b ha hb => absurd ha (lt_asymm hb)⟩
  have hne2 : l2.Pairwise (fun a b => extractTimestamp a ≠ extractTimestamp b) :=
    h2.imp (fun h => ne_of_lt h)
  have hne1 : l1.Pairwise (fun a b => extractTimestamp a ≠ extractTimestamp b) :=
    (hp.pairwise_iff (fun h => Ne.symm h)).mpr hne2
  exact List.eq_of_perm_of_sorted (r := fun a b => extractTimestamp a < extractTimestamp b) hp
    ((h1.and hne1).imp (fun h => lt_of_le_of_ne h.1 h.2)) h2

theorem acceptedLines_perm (pfx : List Char) {directory1 directory2 : List DirEntry}
    (h : directory1.Perm directory2) :
    (acceptedLines pfx directory1).Perm (acceptedLines pfx directory2) := by
  unfold acceptedLines
  exact ((h.filter _).map _).flatten

theorem timestamps_eq_of_perm (S1 S2 : SortAlgorithm) (out1 out2 : OutputFile)
    (pfx1 pfx2 name1 name2 : List Char) {directory1 directory2 : List DirEntry}
    (h : (acceptedLines pfx1 directory1).Perm (acceptedLines pfx2 directory2)) :
    (mergeFilesParallel S1 directory1 out1 pfx1 name1).allLines.Perm
        (mergeFilesParallel S2 directory2 out2 pfx2 name2).allLines ∧
      (mergeFilesParallel S1 directory1 out1 pfx1 name1).allLines.map extractTimestamp =
        (mergeFilesParallel S2 directory2 out2 pfx2 name2).allLines.map extractTimestamp := by
  have hp : (mergeFilesParallel S1 directory1 out1 pfx1 name1).allLines.Perm
      (mergeFilesParallel S2 directory2 out2 pfx2 name2).allLines :=
    ((allLines_perm S1 directory1 out1 pfx1 name1).trans h).trans
      (allLines_perm S2 directory2 out2 pfx2 name2).symm
  exact ⟨hp, List.eq_of_perm_of_sorted (r := fun a b : Int => a ≤ b) (hp.map extractTimestamp)
    (List.pairwise_map.mpr (allLines_sorted S1 directory1 out1 pfx1 name1))
    (List.pairwise_map.mpr (allLines_sorted S2 directory2 out2 pfx2 name2))⟩

theorem processLinesWithoutHeaderTest_eq (ls : List Line) :
    processLinesWithoutHeaderTest ls = processLines ls := by
  induction ls with
  | nil => rfl
  | cons line rest ih =>
    by_cases hh : line = EXPECTED_HEADER
    · have ht : decide (extractTimestamp EXPECTED_HEADER ≥ MIN_TIMESTAMP) = false := by decide
      simp only [processLinesWithoutHeaderTest, processLines, hh, if_true, ht, ih,
        Bool.and_false, Bool.false_and]
      rfl
    · simp only [processLinesWithoutHeaderTest, processLines, hh, if_false, ih]

theorem timestampFails_eq_true {line : Line} (h : timestampFails line = true) :
    extractTimestamp line = -1 := by
  rw [extractTimestamp_eq]
  cases hg : (getlines '\t' line)[3]? with
  | none => rfl
  | some tok =>
    have hf : field line 3 = some tok := field_of_getlines_getElem? hg
    unfold timestampFails at h
    rw [hf] at h
    cases hs : stoll tok with
    | ok v => simp [hs] at h
    | error e => simp [hs]

theorem sort_byTimestamp_sorted (S : SortAlgorithm) (l : List Line) :
    (S.sort byTimestamp l).Pairwise (fun a b => extractTimestamp a ≤ extractTimestamp b) := by
  refine (S.sorted byTimestamp byTimestamp_strictWeakOrdering l).imp ?_
  intro a b h
  simpa [byTimestamp] using h

theorem keeps_nil : keeps [] = false := by decide

theorem stoi_gate_false {tok : List Char}
    (h : ∀ v, strtoBase10 tok = some v → v ≤ 2 ∨ INT_MAX < v) :
    (match stoi tok with
      | .ok val => decide (val > 2)
      | .error _ => false) = false := by
  unfold stoi
  cases hs : strtoBase10 tok with
  | none => rfl
  | some v =>
    rcases h v hs with hv | hv
    · by_cases hr : INT_MIN ≤ v ∧ v ≤ INT_MAX
      · simp [hr, hv]
      · simp [hr]
    · have hr : ¬(INT_MIN ≤ v ∧ v ≤ INT_MAX) := fun hr => absurd hr.2 (not_le.mpr hv)
      simp [hr]

theorem field_of_getlines_getElem?_none {d : Char} {s : List Char} {k : Nat}
    (h : (getlines d s)[k]? = none) :
    (splitFields d s)[k]? = none ∨ (splitFields d s)[k]? = some [] := by
  rcases splitFields_eq_getlines d s with e | e
  · left; rw [e]; exact h
  · rw [e]
    have hk : (getlines d s).length ≤ k := by
      by_contra hk
      have hlt : k < (getlines d s).length := Nat.lt_of_not_le hk
      rw [List.getElem?_eq_getElem hlt] at h
      cases h
    rw [List.getElem?_append_right hk]
    cases hm : k - (getlines d s).length with
    | zero => right; rfl
    | succ n => left; rfl

theorem extractTimestamp_eq_leadingInt (line : Line) :
    extractTimestamp line =
      match leadingInt line 3 with
      | none => -1
      | some v => if LLONG_MIN ≤ v ∧ v ≤ LLONG_MAX then v else -1 := by
  rw [extractTimestamp_eq]
  unfold leadingInt field
  cases hg : (getlines '\t' line)[3]? with
  | none =>
    rcases field_of_getlines_getElem?_none hg with hf | hf
    · rw [hf]; rfl
    · rw [hf]; rfl
  | some tok =>
    rw [field_of_getlines_getElem? hg]
    cases hs : strtoBase10 tok with
    | none => simp [stoll, hs]
    | some v =>
      by_cases hr : LLONG_MIN ≤ v ∧ v ≤ LLONG_MAX
      · simp [stoll, hs, hr]
      · simp [stoll, hs, hr]

theorem keeps_timestamp_range {line : Line} (h : keeps line = true) :
    1000 ≤ extractTimestamp line ∧ extractTimestamp line ≤ 10 ^ 18 := by
  unfold keeps at h
  simp only [Bool.and_eq_true, decide_eq_true_eq, MIN_TIMESTAMP, MAX_TIMESTAMP] at h
  have e : (1000000000000000000 : Int) = 10 ^ 18 := by norm_num
  refine ⟨h.2.1.2, ?_⟩
  rw [← e]
  exact h.2.2

/-! ## The claims -/

/-- C2: a line whose field 3 is an integer outside [1000, 10^18], whether it fits in 64 bits
or not, is in the result of `processFile` for no file, whatever field 2 holds and whether or
not the line contains "ASIC". -/
theorem filter_rejects_timestamp_out_of_range (line : Line) (v : Int)
    (h3 : fieldInt line 3 = some v) (hout : v < 1000 ∨ 10 ^ 18 < v)
    (file : Option (List Char)) : line ∉ processFile file := by
  apply not_mem_processFile_of_not_keeps
  apply keeps_eq_false_of_timestamp
  by_cases hr : LLONG_MIN ≤ v ∧ v ≤ LLONG_MAX
  · rw [extractTimestamp_of_fieldInt h3 hr.1 hr.2]
    exact hout
  · have hr2 : v < LLONG_MIN ∨ LLONG_MAX < v := by
      by_cases h1 : LLONG_MIN ≤ v
      · right; exact not_le.mp (fun h2 => hr ⟨h1, h2⟩)
      · left; exact not_le.mp h1
    rw [extractTimestamp_of_fieldInt_out_of_range h3 hr2]
    left; decide

/-- Witness of C2: a line that contains "ASIC", has TYPE 5 and a timestamp of twenty digits,
too large for a 64-bit integer. -/
theorem filter_rejects_timestamp_out_of_range_witness :
    "ASIC\t1\t5\t99999999999999999999".toList ∉
      processFile (some "ASIC\t1\t5\t99999999999999999999\n".toList) :=
  filter_rejects_timestamp_out_of_range "ASIC\t1\t5\t99999999999999999999".toList
    99999999999999999999 (by decide) (by decide) _

/-- C3: a line of a file that is not the header, contains "ASIC" somewhere and has in field 3
an integer in [1000, 10^18] is kept by `processFile`, with that integer as its timestamp,
whatever field 2 holds. -/
theorem asic_line_kept (line : Line) (content : List Char) (v : Int)
    (hne : line ≠ EXPECTED_HEADER) (hasic : "ASIC".toList <:+: line)
    (h3 : fieldInt line 3 = some v) (hmin : 1000 ≤ v) (hmax : v ≤ 10 ^ 18)
    (hmem : line ∈ getlines '\n' content) :
    line ∈ processFile (some content) ∧ extractTimestamp line = v := by
  have hmax1 : v ≤ 1000000000000000000 := by
    have e : (1000000000000000000 : Int) = 10 ^ 18 := by norm_num
    rw [e]; exact hmax
  have ht : extractTimestamp line = v :=
    extractTimestamp_of_fieldInt h3 (by unfold LLONG_MIN; omega) (by unfold LLONG_MAX; omega)
  refine ⟨?_, ht⟩
  rw [mem_processFile_iff]
  refine ⟨hmem, ?_⟩
  have hf : (find line "ASIC".toList).isSome = true := (find_isSome_iff _ _).mpr hasic
  unfold keeps
  rw [ht, hf]
  simp [hne, MIN_TIMESTAMP, MAX_TIMESTAMP, hmin, hmax1]

/-- Witness of C3: the line `XASIC<TAB>CH<TAB>foo<TAB>5000<TAB>1` of the specification is
kept, with timestamp 5000. -/
theorem asic_line_kept_witness :
    "XASIC\tCH\tfoo\t5000\t1".toList ∈ processFile (some "XASIC\tCH\tfoo\t5000\t1\n".toList) ∧
      extractTimestamp "XASIC\tCH\tfoo\t5000\t1".toList = 5000 :=
  asic_line_kept "XASIC\tCH\tfoo\t5000\t1".toList "XASIC\tCH\tfoo\t5000\t1\n".toList 5000
    (by decide) ⟨"X".toList, "\tCH\tfoo\t5000\t1".toList, by decide⟩ (by decide) (by decide)
    (by decide) (by decide)

/-- C4, as it is written, fails: in the line `0<TAB>1<TAB>3abc<TAB>5000` field 2 is not an
integer literal, the line does not contain "ASIC", and `processFile` keeps it: `std::stoi`
reads the leading digit 3 of the field and ignores what follows, so the TYPE test is true. -/
theorem type_gate_passes_leading_integer :
    field "0\t1\t3abc\t5000".toList 2 = some "3abc".toList ∧
      intLiteral "3abc".toList = none ∧
      ¬ "ASIC".toList <:+: "0\t1\t3abc\t5000".toList ∧
      isValidLine "0\t1\t3abc\t5000".toList = true ∧
      "0\t1\t3abc\t5000".toList ∈ processFile (some "0\t1\t3abc\t5000\n".toList) := by
  decide

/-- C4, amended: a line that does not contain "ASIC" is in the result of `processFile` for
no file, whatever its timestamp, when its field 2 is absent, or is an integer of at most 2,
or is not an integer literal as a whole and does not begin, after optional white space and
an optional sign, with digits whose value is greater than 2 and fits in a 32-bit `int`. The
loop of `processFile` goes on past such a line: the lines before it and after it are
processed as if it were not there. -/
theorem type_gate_rejects (line : Line) (hasic : ¬ "ASIC".toList <:+: line)
    (h2 : field line 2 = none ∨
      (∃ v, fieldInt line 2 = some v ∧ v ≤ 2) ∨
      (∃ tok, field line 2 = some tok ∧ intLiteral tok = none ∧
        ∀ v, strtoBase10 tok = some v → v ≤ 2 ∨ 2 ^ 31 - 1 < v)) :
    (∀ file, line ∉ processFile file) ∧
      ∀ before after : List Line,
        processLines (before ++ line :: after) = processLines before ++ processLines after := by
  have hf : (find line "ASIC".toList).isSome = false := by
    rw [← Bool.not_eq_true, find_isSome_iff]; exact hasic
  have hv : isValidLine line = false := by
    rw [isValidLine_eq]
    cases hg : (getlines '\t' line)[2]? with
    | none => rfl
    | some tok1 =>
      have hfield : field line 2 = some tok1 := field_of_getlines_getElem? hg
      apply stoi_gate_false
      intro v hv
      rcases h2 with h | ⟨w, hw, hle⟩ | ⟨tok, h, _, hlead⟩
      · rw [hfield] at h; cases h
      · obtain ⟨tok, ht, hs⟩ := fieldInt_eq_some hw
        rw [hg] at ht
        cases ht
        rw [hs] at hv
        cases hv
        exact Or.inl hle
      · rw [hfield] at h
        cases h
        rcases hlead v hv with h1 | h1
        · exact Or.inl h1
        · right
          unfold INT_MAX
          omega
  have hk : keeps line = false := by
    unfold keeps
    rw [hf, hv]
    simp
  refine ⟨fun file => not_mem_processFile_of_not_keeps hk file, fun before after => ?_⟩
  simp [processLines_eq_filter, List.filter_append, List.filter_cons, hk]

/-- Witness of C4 amended: the line `1<TAB>2<TAB>foo<TAB>5000`, whose field 2 holds no digit
and whose timestamp is in range. -/
theorem type_gate_rejects_witness :
    (∀ file, "1\t2\tfoo\t5000".toList ∉ processFile file) ∧
      ∀ before after : List Line,
        processLines (before ++ "1\t2\tfoo\t5000".toList :: after) =
          processLines before ++ processLines after :=
  type_gate_rejects "1\t2\tfoo\t5000".toList (by decide)
    (Or.inr (Or.inr ⟨"foo".toList, by decide, by decide, fun v hv => by
      have hn : strtoBase10 "foo".toList = none := by decide
      rw [hn] at hv
      cases hv⟩))

/-- C5, as it is written, fails: in the line `1<TAB>2<TAB>5<TAB>5000abc` field 3 is not an
integer literal as a whole, yet `std::stoll` reads its leading digits: the timestamp is 5000,
not the sentinel, and `processFile` keeps the line. -/
theorem timestamp_with_trailing_characters_kept :
    field "1\t2\t5\t5000abc".toList 3 = some "5000abc".toList ∧
      intLiteral "5000abc".toList = none ∧
      extractTimestamp "1\t2\t5\t5000abc".toList = 5000 ∧
      "1\t2\t5\t5000abc".toList ∈ processFile (some "1\t2\t5\t5000abc\n".toList) := by
  decide

/-- C5, amended: for a line whose field 3 is absent or is not an integer literal as a whole,
what counts is the integer that the field begins with, after optional white space and an
optional sign. The line is in the result of `processFile` for no file, whatever field 2
holds and whether or not it contains "ASIC", when there is no such integer (as in "abc" or
the empty field) or it lies outside [1000, 10^18]. The timestamp is the sentinel -1 when
there is no such integer, when it does not fit in 64 bits, or when it is -1 itself; when it
fits in 64 bits the timestamp is that integer, as 5000 for "5000abc". -/
theorem unparseable_timestamp_rejected (line : Line) (_hnot : fieldInt line 3 = none) :
    ((∀ v, leadingInt line 3 = some v → v < 1000 ∨ 10 ^ 18 < v) →
        ∀ file, line ∉ processFile file) ∧
      ((∀ v, leadingInt line 3 = some v → v < LLONG_MIN ∨ LLONG_MAX < v ∨ v = -1) →
        extractTimestamp line = -1) ∧
      (∀ v, leadingInt line 3 = some v → LLONG_MIN ≤ v → v ≤ LLONG_MAX →
        extractTimestamp line = v) := by
  have ht := extractTimestamp_eq_leadingInt line
  refine ⟨fun h file => not_mem_processFile_of_not_keeps ?_ file, fun h => ?_,
    fun v hv hlo hhi => ?_⟩
  · apply keeps_eq_false_of_timestamp
    rw [ht]
    cases hl : leadingInt line 3 with
    | none => left; decide
    | some v =>
      by_cases hr : LLONG_MIN ≤ v ∧ v ≤ LLONG_MAX
      · simp only [hr, and_self, if_true]
        exact h v hl
      · simp only [hr, if_false]
        left; decide
  · rw [ht]
    cases hl : leadingInt line 3 with
    | none => rfl
    | some v =>
      by_cases hr : LLONG_MIN ≤ v ∧ v ≤ LLONG_MAX
      · simp only [hr, and_self, if_true]
        rcases h v hl with h1 | h1 | h1
        · exact absurd hr.1 (not_le.mpr h1)
        · exact absurd hr.2 (not_le.mpr h1)
        · exact h1
      · simp only [hr, if_false]
  · rw [ht, hv]
    simp [hlo, hhi]

/-- Witness of C5 amended: in a line that contains "ASIC" and has TYPE 5, the field 3
"99999999999999999999abc" begins with an integer too large for 64 bits: the timestamp is -1
and the line is kept for no file; and the field 3 "5000abc" gives the timestamp 5000. -/
theorem unparseable_timestamp_rejected_witness :
    (∀ file, "ASIC\t1\t5\t99999999999999999999abc".toList ∉ processFile file) ∧
      extractTimestamp "ASIC\t1\t5\t99999999999999999999abc".toList = -1 ∧
      extractTimestamp "1\t2\t5\t5000abc".toList = 5000 :=
  have hl : leadingInt "ASIC\t1\t5\t99999999999999999999abc".toList 3 =
      some 99999999999999999999 := by decide
  ⟨(unparseable_timestamp_rejected "ASIC\t1\t5\t99999999999999999999abc".toList
      (by decide)).1 (fun v hv => by
        rw [hl] at hv
        cases hv
        right; decide),
    (unparseable_timestamp_rejected "ASIC\t1\t5\t99999999999999999999abc".toList
      (by decide)).2.1 (fun v hv => by
        rw [hl] at hv
        cases hv
        right; left; decide),
    (unparseable_timestamp_rejected "1\t2\t5\t5000abc".toList (by decide)).2.2 5000
      (by decide) (by decide) (by decide)⟩

/-- C6: a line equal to the header constant is in the result of `processFile` for no file,
and in an output document that was written in full the first line is the header and no data
line is equal to it. -/
theorem header_stripped (file : Option (List Char)) (S : SortAlgorithm)
    (directory : List DirEntry) (pfx outputFileName : List Char) :
    EXPECTED_HEADER ∉ processFile file ∧
      (∃ text, (mergeFilesParallel S directory .writable pfx outputFileName).output = some text ∧
        (getlines '\n' text).head? = some EXPECTED_HEADER) ∧
      EXPECTED_HEADER ∉ dataLines (mergeFilesParallel S directory .writable pfx outputFileName) := by
  have hk : keeps EXPECTED_HEADER = false := by simp [keeps]
  refine ⟨not_mem_processFile_of_not_keeps hk file, ?_, ?_⟩
  · refine ⟨_, output_writable S directory pfx outputFileName, ?_⟩
    rw [getlines_document _ (allLines_no_newline S directory .writable pfx outputFileName)]
    rfl
  · rw [dataLines_writable]
    intro hm
    have := (mem_acceptedLines
      ((allLines_perm S directory .writable pfx outputFileName).mem_iff.mp hm)).1
    rw [hk] at this
    cases this

/-- C7: the lines that `mergeFilesParallel` hands to the writer after the sort, and so the
data lines of an output document written in full, have timestamps, as `extractTimestamp`
computes them, in non-decreasing order. -/
theorem output_sorted_by_timestamp (S : SortAlgorithm) (directory : List DirEntry)
    (out : OutputFile) (pfx outputFileName : List Char) :
    ((mergeFilesParallel S directory out pfx outputFileName).allLines.map
        extractTimestamp).Sorted (· ≤ ·) ∧
      ((dataLines (mergeFilesParallel S directory .writable pfx outputFileName)).map
        extractTimestamp).Sorted (· ≤ ·) := by
  constructor
  · exact List.pairwise_map.mpr (allLines_sorted S directory out pfx outputFileName)
  · rw [dataLines_writable]
    exact List.pairwise_map.mpr (allLines_sorted S directory .writable pfx outputFileName)

/-- C8: the data lines of the output document are, as a multiset, the lines of the matched
files that the filter accepts, so that each accepted line occurs as many times in the
document as in the files; each data line satisfies the acceptance test; and the count in the
message is the number of accepted lines. -/
theorem output_content (S : SortAlgorithm) (directory : List DirEntry)
    (pfx outputFileName : List Char) :
    ((dataLines (mergeFilesParallel S directory .writable pfx outputFileName) : List Line) :
        Multiset Line) = ((acceptedLines pfx directory : List Line) : Multiset Line) ∧
      (∀ l ∈ dataLines (mergeFilesParallel S directory .writable pfx outputFileName),
        keeps l = true) ∧
      (dataLines (mergeFilesParallel S directory .writable pfx outputFileName)).length =
        (acceptedLines pfx directory).length ∧
      (mergeFilesParallel S directory .writable pfx outputFileName).stdout =
        doneMessage (acceptedLines pfx directory).length outputFileName := by
  have hp := allLines_perm S directory .writable pfx outputFileName
  rw [dataLines_writable]
  exact ⟨Multiset.coe_eq_coe.mpr hp, fun l hl => (mem_acceptedLines (hp.mem_iff.mp hl)).1,
    hp.length_eq, stdout_eq S directory .writable pfx outputFileName⟩

/-- C9, as it is written, fails, with the sort of the library itself: a file holds 17 lines
with the same timestamp 5000, numbered 1 to 17 in field 0. For 17 elements `std::sort`
partitions once, which swaps the first line with the middle one and reverses the others,
and its insertion sort then moves nothing: the first document holds the lines in the order
9, 17, 16, ..., 10, 1, 8, 7, ..., 2. Merging that document again sorts the same way once
more, and the second document holds them in the order 10, 2, 3, ..., 8, 1, 9, 11, ..., 17. -/
theorem remerge_reorders_equal_timestamps :
    dataLines (mergeFilesParallel libstdcxxSortAlgorithm
        [⟨"Master_a".toList, true, some ("1\t1\t5\t5000\n2\t1\t5\t5000\n3\t1\t5\t5000\n4\t1\t5\t5000\n5\t1\t5\t5000\n6\t1\t5\t5000\n" ++
          "7\t1\t5\t5000\n8\t1\t5\t5000\n9\t1\t5\t5000\n10\t1\t5\t5000\n11\t1\t5\t5000\n12\t1\t5\t5000\n" ++
          "13\t1\t5\t5000\n14\t1\t5\t5000\n15\t1\t5\t5000\n16\t1\t5\t5000\n17\t1\t5\t5000\n").toList⟩] .writable
        "Master_".toList "merged_MASTER.txt".toList) =
      [9, 17, 16, 15, 14, 13, 12, 11, 10, 1, 8, 7, 6, 5, 4, 3, 2].map tiedLine ∧
    dataLines (mergeFilesParallel libstdcxxSortAlgorithm
        [⟨"Master_merged".toList, true,
          (mergeFilesParallel libstdcxxSortAlgorithm
            [⟨"Master_a".toList, true, some ("1\t1\t5\t5000\n2\t1\t5\t5000\n3\t1\t5\t5000\n4\t1\t5\t5000\n5\t1\t5\t5000\n6\t1\t5\t5000\n" ++
          "7\t1\t5\t5000\n8\t1\t5\t5000\n9\t1\t5\t5000\n10\t1\t5\t5000\n11\t1\t5\t5000\n12\t1\t5\t5000\n" ++
          "13\t1\t5\t5000\n14\t1\t5\t5000\n15\t1\t5\t5000\n16\t1\t5\t5000\n17\t1\t5\t5000\n").toList⟩] .writable
            "Master_".toList "merged_MASTER.txt".toList).output⟩] .writable
        "Master_".toList "merged_MASTER.txt".toList) =
      [10, 2, 3, 4, 5, 6, 7, 8, 1, 9, 11, 12, 13, 14, 15, 16, 17].map tiedLine ∧
    stdSort byTimestamp ([1, 2, 3, 4, 5, 6, 7, 8, 9, 10, 11, 12, 13, 14, 15, 16, 17].map
        tiedLine) =
      some ([9, 17, 16, 15, 14, 13, 12, 11, 10, 1, 8, 7, 6, 5, 4, 3, 2].map tiedLine) := by
  decide

/-- C9, amended: when the output document of one merge is the only input file of a second
merge, the second document holds the same data lines as a multiset and the same sequence of
timestamps as the first; lines with equal timestamps may be arranged differently, and when
no two data lines have the same timestamp the data lines are the same in the same order. -/
theorem remerge_same_content (S1 S2 : SortAlgorithm) (directory : List DirEntry)
    (pfx outputFileName pfx2 suffix outputFileName2 : List Char) :
    ((dataLines (mergeFilesParallel S2 [⟨pfx2 ++ suffix, true,
          (mergeFilesParallel S1 directory .writable pfx outputFileName).output⟩]
          .writable pfx2 outputFileName2) : List Line) : Multiset Line) =
        ((dataLines (mergeFilesParallel S1 directory .writable pfx outputFileName) :
          List Line) : Multiset Line) ∧
      (dataLines (mergeFilesParallel S2 [⟨pfx2 ++ suffix, true,
          (mergeFilesParallel S1 directory .writable pfx outputFileName).output⟩]
          .writable pfx2 outputFileName2)).map extractTimestamp =
        (dataLines (mergeFilesParallel S1 directory .writable pfx outputFileName)).map
          extractTimestamp ∧
      (((dataLines (mergeFilesParallel S1 directory .writable pfx outputFileName)).map
          extractTimestamp).Nodup →
        dataLines (mergeFilesParallel S2 [⟨pfx2 ++ suffix, true,
          (mergeFilesParallel S1 directory .writable pfx outputFileName).output⟩]
          .writable pfx2 outputFileName2) =
        dataLines (mergeFilesParallel S1 directory .writable pfx outputFileName)) := by
  rw [dataLines_writable, dataLines_writable]
  have hp := allLines_perm S2 [⟨pfx2 ++ suffix, true,
    (mergeFilesParallel S1 directory .writable pfx outputFileName).output⟩]
    .writable pfx2 outputFileName2
  rw [acceptedLines_of_output] at hp
  have hs1 := allLines_sorted S1 directory .writable pfx outputFileName
  have hs2 := allLines_sorted S2 [⟨pfx2 ++ suffix, true,
    (mergeFilesParallel S1 directory .writable pfx outputFileName).output⟩]
    .writable pfx2 outputFileName2
  have hmap := List.eq_of_perm_of_sorted (r := fun a b : Int => a ≤ b)
    (hp.map extractTimestamp) (List.pairwise_map.mpr hs2) (List.pairwise_map.mpr hs1)
  refine ⟨Multiset.coe_eq_coe.mpr hp, hmap, fun hnd => ?_⟩
  haveI : IsAntisymm Line (fun a b => extractTimestamp a < extractTimestamp b) :=
    ⟨fun a b h1 h2 => absurd h1 (lt_asymm h2)⟩
  have hne1 := List.pairwise_map.mp hnd
  have hnd2 := hnd
  rw [← hmap] at hnd2
  have hne2 := List.pairwise_map.mp hnd2
  refine List.eq_of_perm_of_sorted (r := fun a b => extractTimestamp a < extractTimestamp b)
    hp ?_ ?_
  · exact (hs2.and hne2).imp (fun h => lt_of_le_of_ne h.1 h.2)
  · exact (hs1.and hne1).imp (fun h => lt_of_le_of_ne h.1 h.2)

/-- Witness of C9 amended: two input files whose three accepted lines have the distinct
timestamps 7000, 5000 and 6000; merging the merged document again, with another sort, gives
the same data lines in the same order. -/
theorem remerge_same_content_witness :
    dataLines (mergeFilesParallel reverseInsertionSortAlgorithm [⟨"Master_".toList ++ "m".toList,
        true, (mergeFilesParallel insertionSortAlgorithm
          [⟨"Master_a".toList, true, some "1\t1\t5\t7000\n2\t2\t5\t5000\n".toList⟩,
            ⟨"Master_b".toList, true, some "3\t3\t5\t6000\n".toList⟩] .writable
          "Master_".toList "merged_MASTER.txt".toList).output⟩]
        .writable "Master_".toList "merged_MASTER.txt".toList) =
      dataLines (mergeFilesParallel insertionSortAlgorithm
        [⟨"Master_a".toList, true, some "1\t1\t5\t7000\n2\t2\t5\t5000\n".toList⟩,
          ⟨"Master_b".toList, true, some "3\t3\t5\t6000\n".toList⟩] .writable
        "Master_".toList "merged_MASTER.txt".toList) :=
  (remerge_same_content insertionSortAlgorithm reverseInsertionSortAlgorithm
    [⟨"Master_a".toList, true, some "1\t1\t5\t7000\n2\t2\t5\t5000\n".toList⟩,
      ⟨"Master_b".toList, true, some "3\t3\t5\t6000\n".toList⟩]
    "Master_".toList "merged_MASTER.txt".toList "Master_".toList "m".toList
    "merged_MASTER.txt".toList).2.2 (by decide)

/-- C11: a file that cannot be opened contributes the empty sequence, so a run gives the same
lines, the same output document and the same message as the run in which the unopenable
entries are left out of the directory; when the two runs use different sorts, the documents
still hold the same multiset of data lines and the same sequence of timestamps. The run goes
to its end, and a writable output file holds a document. -/
theorem unreadable_files_contribute_nothing (S S2 : SortAlgorithm) (directory : List DirEntry)
    (out : OutputFile) (pfx outputFileName : List Char) :
    processFile none = [] ∧
      mergeFilesParallel S directory out pfx outputFileName =
        mergeFilesParallel S (directory.filter (fun e => e.content.isSome)) out pfx
          outputFileName ∧
      ((dataLines (mergeFilesParallel S directory .writable pfx outputFileName) : List Line) :
          Multiset Line) =
        ((dataLines (mergeFilesParallel S2 (directory.filter (fun e => e.content.isSome))
          .writable pfx outputFileName) : List Line) : Multiset Line) ∧
      (dataLines (mergeFilesParallel S directory .writable pfx outputFileName)).map
          extractTimestamp =
        (dataLines (mergeFilesParallel S2 (directory.filter (fun e => e.content.isSome))
          .writable pfx outputFileName)).map extractTimestamp ∧
      ∃ text, (mergeFilesParallel S directory .writable pfx outputFileName).output =
        some text := by
  have heq : ∀ out, mergeFilesParallel S directory out pfx outputFileName =
      mergeFilesParallel S (directory.filter (fun e => e.content.isSome)) out pfx
        outputFileName := by
    intro out
    unfold mergeFilesParallel
    simp only
    rw [collectResults_readable]
  have hacc : (acceptedLines pfx directory).Perm
      (acceptedLines pfx (directory.filter (fun e => e.content.isSome))) := by
    have h1 := allLines_perm S directory .writable pfx outputFileName
    rw [heq] at h1
    exact h1.symm.trans (allLines_perm S _ .writable pfx outputFileName)
  have hp := timestamps_eq_of_perm S S2 .writable .writable pfx pfx outputFileName
    outputFileName hacc
  rw [dataLines_writable, dataLines_writable]
  exact ⟨rfl, heq out, Multiset.coe_eq_coe.mpr hp.1, hp.2, _,
    output_writable S directory pfx outputFileName⟩

/-- C12: when no entry of the directory is selected for the prefix, the output document is
the header line alone, it has no data line, and the message reports the count 0. -/
theorem empty_input (S : SortAlgorithm) (directory : List DirEntry)
    (pfx outputFileName : List Char) (h : ∀ e ∈ directory, selects pfx e = false) :
    (mergeFilesParallel S directory .writable pfx outputFileName).output =
        some (EXPECTED_HEADER ++ ['\n']) ∧
      getlines '\n' (EXPECTED_HEADER ++ ['\n']) = [EXPECTED_HEADER] ∧
      dataLines (mergeFilesParallel S directory .writable pfx outputFileName) = [] ∧
      (mergeFilesParallel S directory .writable pfx outputFileName).stdout =
        "Parallel merge done: 0 lines written to '".toList ++ outputFileName ++
          "'\n".toList := by
  have hfil : directory.filter (selects pfx) = [] :=
    List.filter_eq_nil_iff.mpr (fun e he => by simp [h e he])
  have hall : (mergeFilesParallel S directory .writable pfx outputFileName).allLines = [] := by
    unfold mergeFilesParallel
    simp only [hfil, List.map_nil, collectResults]
    exact sort_nil S _
  have hout : (mergeFilesParallel S directory .writable pfx outputFileName).output =
      some (EXPECTED_HEADER ++ ['\n']) := by
    rw [output_writable, hall]
    rfl
  refine ⟨hout, by decide, ?_, ?_⟩
  · rw [dataLines_writable, hall]
  · have hs : (mergeFilesParallel S directory .writable pfx outputFileName).stdout =
        doneMessage (mergeFilesParallel S directory .writable pfx outputFileName).allLines.length
          outputFileName := rfl
    rw [hs, hall]
    rfl

/-- Witness of C12: a directory that holds a file for the other prefix and a directory with a
matching name, neither of which is selected for "Master_". -/
theorem empty_input_witness :
    (mergeFilesParallel insertionSortAlgorithm
        [⟨"Slave_a".toList, true, some "1\t1\t5\t5000\n".toList⟩,
          ⟨"Master_dir".toList, false, none⟩]
        .writable "Master_".toList "merged_MASTER.txt".toList).output =
        some (EXPECTED_HEADER ++ ['\n']) ∧
      getlines '\n' (EXPECTED_HEADER ++ ['\n']) = [EXPECTED_HEADER] ∧
      dataLines (mergeFilesParallel insertionSortAlgorithm
        [⟨"Slave_a".toList, true, some "1\t1\t5\t5000\n".toList⟩,
          ⟨"Master_dir".toList, false, none⟩]
        .writable "Master_".toList "merged_MASTER.txt".toList) = [] ∧
      (mergeFilesParallel insertionSortAlgorithm
        [⟨"Slave_a".toList, true, some "1\t1\t5\t5000\n".toList⟩,
          ⟨"Master_dir".toList, false, none⟩]
        .writable "Master_".toList "merged_MASTER.txt".toList).stdout =
        "Parallel merge done: 0 lines written to '".toList ++ "merged_MASTER.txt".toList ++
          "'\n".toList :=
  empty_input insertionSortAlgorithm
    [⟨"Slave_a".toList, true, some "1\t1\t5\t5000\n".toList⟩, ⟨"Master_dir".toList, false, none⟩]
    "Master_".toList "merged_MASTER.txt".toList (by decide)

/-- C13: with a file `Master_a` holding two lines of TYPE 5 with the timestamps 500000 and
2000000000 and a file `Master_b` holding two lines of TYPE 5 with the timestamps
999999999999999999 and 999, the merge for the prefix "Master_" writes the header followed by
the first three lines in the order of their timestamps; the line with the timestamp 999 is
left out and the message counts 3 lines. This holds for both orders of the two files in the
enumeration and for every sort that fulfils the contract. -/
theorem end_to_end_example (S : SortAlgorithm) (a b : List Char) (l1 l2 l3 l4 : Line)
    (directory : List DirEntry)
    (ha : getlines '\n' a = [l1, l2]) (hb : getlines '\n' b = [l3, l4])
    (h1 : fieldInt l1 2 = some 5 ∧ fieldInt l1 3 = some 500000)
    (h2 : fieldInt l2 2 = some 5 ∧ fieldInt l2 3 = some 2000000000)
    (h3 : fieldInt l3 2 = some 5 ∧ fieldInt l3 3 = some 999999999999999999)
    (h4 : fieldInt l4 2 = some 5 ∧ fieldInt l4 3 = some 999)
    (hd : directory = [⟨"Master_a".toList, true, some a⟩, ⟨"Master_b".toList, true, some b⟩] ∨
      directory = [⟨"Master_b".toList, true, some b⟩, ⟨"Master_a".toList, true, some a⟩]) :
    (mergeFilesParallel S directory .writable "Master_".toList
        "merged_MASTER.txt".toList).output =
        some (EXPECTED_HEADER ++ '\n' :: (l1 ++ '\n' :: (l2 ++ '\n' :: (l3 ++ ['\n'])))) ∧
      dataLines (mergeFilesParallel S directory .writable "Master_".toList
        "merged_MASTER.txt".toList) = [l1, l2, l3] ∧
      (dataLines (mergeFilesParallel S directory .writable "Master_".toList
        "merged_MASTER.txt".toList)).map extractTimestamp =
        [500000, 2000000000, 999999999999999999] ∧
      l4 ∉ dataLines (mergeFilesParallel S directory .writable "Master_".toList
        "merged_MASTER.txt".toList) ∧
      (mergeFilesParallel S directory .writable "Master_".toList
        "merged_MASTER.txt".toList).stdout =
        "Parallel merge done: 3 lines written to 'merged_MASTER.txt'\n".toList := by
  have hk1 : keeps l1 = true :=
    keeps_of_fieldInt h1.1 (by decide) (by decide) h1.2 (by decide) (by decide)
  have hk2 : keeps l2 = true :=
    keeps_of_fieldInt h2.1 (by decide) (by decide) h2.2 (by decide) (by decide)
  have hk3 : keeps l3 = true :=
    keeps_of_fieldInt h3.1 (by decide) (by decide) h3.2 (by decide) (by decide)
  have ht1 : extractTimestamp l1 = 500000 :=
    extractTimestamp_of_fieldInt h1.2 (by decide) (by decide)
  have ht2 : extractTimestamp l2 = 2000000000 :=
    extractTimestamp_of_fieldInt h2.2 (by decide) (by decide)
  have ht3 : extractTimestamp l3 = 999999999999999999 :=
    extractTimestamp_of_fieldInt h3.2 (by decide) (by decide)
  have ht4 : extractTimestamp l4 = 999 :=
    extractTimestamp_of_fieldInt h4.2 (by decide) (by decide)
  have hk4 : keeps l4 = false := keeps_eq_false_of_timestamp (by rw [ht4]; left; decide)
  have hsa : selects "Master_".toList ⟨"Master_a".toList, true, some a⟩ = true := rfl
  have hsb : selects "Master_".toList ⟨"Master_b".toList, true, some b⟩ = true := rfl
  have hacc : (acceptedLines "Master_".toList directory).Perm [l1, l2, l3] := by
    rcases hd with hd | hd
    · have e : acceptedLines "Master_".toList directory = [l1, l2, l3] := by
        rw [hd]
        unfold acceptedLines
        rw [List.filter_cons_of_pos hsa, List.filter_cons_of_pos hsb]
        simp [fileLines, ha, hb, List.filter_cons, hk1, hk2, hk3, hk4]
      rw [e]
    · have e : acceptedLines "Master_".toList directory = [l3, l1, l2] := by
        rw [hd]
        unfold acceptedLines
        rw [List.filter_cons_of_pos hsb, List.filter_cons_of_pos hsa]
        simp [fileLines, ha, hb, List.filter_cons, hk1, hk2, hk3, hk4]
      rw [e]
      exact (List.perm_append_comm : ([l3] ++ [l1, l2]).Perm ([l1, l2] ++ [l3]))
  have hstrict : [l1, l2, l3].Pairwise
      (fun x y => extractTimestamp x < extractTimestamp y) := by
    simp [ht1, ht2, ht3]
  have hall : (mergeFilesParallel S directory .writable "Master_".toList
      "merged_MASTER.txt".toList).allLines = [l1, l2, l3] :=
    eq_of_perm_of_timestamps ((allLines_perm S directory .writable _ _).trans hacc)
      (allLines_sorted S directory .writable _ _) hstrict
  have hne : ∀ x ∈ [l1, l2, l3], x ≠ l4 := by
    intro x hx e
    have hkx : keeps x = true := by
      simp only [List.mem_cons, List.mem_singleton, List.not_mem_nil, or_false] at hx
      rcases hx with rfl | rfl | rfl
      · exact hk1
      · exact hk2
      · exact hk3
    rw [e, hk4] at hkx
    cases hkx
  have hs : (mergeFilesParallel S directory .writable "Master_".toList
      "merged_MASTER.txt".toList).stdout =
      doneMessage (mergeFilesParallel S directory .writable "Master_".toList
        "merged_MASTER.txt".toList).allLines.length "merged_MASTER.txt".toList := rfl
  rw [dataLines_writable, output_writable, hs, hall]
  have hmsg : doneMessage 3 "merged_MASTER.txt".toList =
      "Parallel merge done: 3 lines written to 'merged_MASTER.txt'\n".toList := by decide
  refine ⟨rfl, rfl, ?_, fun hm => hne l4 hm rfl, hmsg⟩
  simp [ht1, ht2, ht3]

/-- Witness of C13: the four lines have the channel fields `0<TAB>1`, TYPE 5 and a pulse
width, and `Master_b` is enumerated first. -/
theorem end_to_end_example_witness :
    dataLines (mergeFilesParallel reverseInsertionSortAlgorithm
        [⟨"Master_b".toList, true,
            some "0\t1\t5\t999999999999999999\t7\n0\t1\t5\t999\t7\n".toList⟩,
          ⟨"Master_a".toList, true,
            some "0\t1\t5\t500000\t7\n0\t1\t5\t2000000000\t7\n".toList⟩]
        .writable "Master_".toList "merged_MASTER.txt".toList) =
      ["0\t1\t5\t500000\t7".toList, "0\t1\t5\t2000000000\t7".toList,
        "0\t1\t5\t999999999999999999\t7".toList] :=
  (end_to_end_example reverseInsertionSortAlgorithm
    "0\t1\t5\t500000\t7\n0\t1\t5\t2000000000\t7\n".toList
    "0\t1\t5\t999999999999999999\t7\n0\t1\t5\t999\t7\n".toList
    "0\t1\t5\t500000\t7".toList "0\t1\t5\t2000000000\t7".toList
    "0\t1\t5\t999999999999999999\t7".toList "0\t1\t5\t999\t7".toList
    [⟨"Master_b".toList, true, some "0\t1\t5\t999999999999999999\t7\n0\t1\t5\t999\t7\n".toList⟩,
      ⟨"Master_a".toList, true, some "0\t1\t5\t500000\t7\n0\t1\t5\t2000000000\t7\n".toList⟩]
    (by decide) (by decide) (by decide) (by decide) (by decide) (by decide)
    (Or.inr rfl)).2.1

/-- C14, as it is written, fails: the sentinel -1 is not the least key. The line
`a<TAB>b<TAB>c<TAB>-5` parses to the key -5 and the line `a<TAB>b<TAB>c<TAB>foo` fails to
parse; every sort that fulfils the contract puts the line that fails to parse after the one
that parses. -/
theorem sentinel_is_not_the_least_key :
    timestampFails "a\tb\tc\tfoo".toList = true ∧
      extractTimestamp "a\tb\tc\tfoo".toList = -1 ∧
      timestampFails "a\tb\tc\t-5".toList = false ∧
      extractTimestamp "a\tb\tc\t-5".toList = -5 ∧
      insertionSortAlgorithm.sort byTimestamp ["a\tb\tc\tfoo".toList, "a\tb\tc\t-5".toList] =
        ["a\tb\tc\t-5".toList, "a\tb\tc\tfoo".toList] ∧
      ∀ S : SortAlgorithm,
        S.sort byTimestamp ["a\tb\tc\tfoo".toList, "a\tb\tc\t-5".toList] =
          ["a\tb\tc\t-5".toList, "a\tb\tc\tfoo".toList] := by
  refine ⟨by decide, by decide, by decide, by decide, by decide, fun S => ?_⟩
  refine eq_of_perm_of_timestamps ((S.perm _ _).trans (List.Perm.swap _ _ _))
    (sort_byTimestamp_sorted S _) (List.pairwise_pair.mpr ?_)
  show extractTimestamp "a\tb\tc\t-5".toList < extractTimestamp "a\tb\tc\tfoo".toList
  decide

/-- C14, amended: `extractTimestamp` returns -1 for every line with fewer than 4 fields or
with a field 3 on which `std::stoll` throws. In the result of the sort of any list of lines,
filtered or not, no line whose timestamp fails to parse comes after a line whose key is
greater than -1, and no line whose key is less than -1 comes after a line whose timestamp
fails to parse: the sentinel sorts before the keys above -1 and after the keys below -1.
In the lists that `mergeFilesParallel` sorts, no line fails to parse and every key is in
[1000, 10^18]. -/
theorem sentinel_before_larger_keys (S : SortAlgorithm) (l : List Line) :
    (∀ line, timestampFails line = true → extractTimestamp line = -1) ∧
      (S.sort byTimestamp l).Pairwise
        (fun a b => timestampFails b = true → extractTimestamp a ≤ -1) ∧
      (S.sort byTimestamp l).Pairwise
        (fun a b => timestampFails a = true → -1 ≤ extractTimestamp b) ∧
      ∀ (directory : List DirEntry) (out : OutputFile) (pfx outputFileName : List Char),
        ∀ x ∈ (mergeFilesParallel S directory out pfx outputFileName).allLines,
          timestampFails x = false ∧ 1000 ≤ extractTimestamp x ∧
            extractTimestamp x ≤ 10 ^ 18 := by
  refine ⟨fun line h => timestampFails_eq_true h, ?_, ?_, ?_⟩
  · refine (sort_byTimestamp_sorted S l).imp ?_
    intro a b hab hb
    rw [timestampFails_eq_true hb] at hab
    exact hab
  · refine (sort_byTimestamp_sorted S l).imp ?_
    intro a b hab ha
    rw [timestampFails_eq_true ha] at hab
    exact hab
  · intro directory out pfx outputFileName x hx
    have hk := (mem_acceptedLines
      ((allLines_perm S directory out pfx outputFileName).mem_iff.mp hx)).1
    have hr := keeps_timestamp_range hk
    refine ⟨?_, hr⟩
    cases hf : timestampFails x with
    | false => rfl
    | true =>
      have h1 := hr.1
      rw [timestampFails_eq_true hf] at h1
      exact absurd h1 (by decide)

/-- C15: the result of `processFile` on a file is the list of the lines of the file that pass
the test of the loop, in the order of the file and each as it stands in the file; it is a
subsequence of the lines of the file, whether these are delimited as `std::getline` does or
split at every newline. -/
theorem file_order_preserved (content : List Char) :
    processFile (some content) = (getlines '\n' content).filter keeps ∧
      processFile (some content) = (splitFields '\n' content).filter keeps ∧
      (processFile (some content)).Sublist (getlines '\n' content) := by
  have h1 : processFile (some content) = (getlines '\n' content).filter keeps :=
    processLines_eq_filter _
  refine ⟨h1, ?_, ?_⟩
  · rw [h1]
    rcases splitFields_eq_getlines '\n' content with e | e
    · rw [e]
    · rw [e, List.filter_append]
      simp [List.filter_cons, keeps_nil]
  · rw [h1]
    exact List.filter_sublist _

/-- C16: when two enumerations list the same entries in different orders, the two output
documents hold the same multiset of data lines and the same sequence of timestamps, whatever
sorts fulfilling the contract the two runs use. -/
theorem enumeration_order_irrelevant (S1 S2 : SortAlgorithm)
    (directory1 directory2 : List DirEntry) (pfx outputFileName : List Char)
    (h : directory1.Perm directory2) :
    ((dataLines (mergeFilesParallel S1 directory1 .writable pfx outputFileName) : List Line) :
        Multiset Line) =
        ((dataLines (mergeFilesParallel S2 directory2 .writable pfx outputFileName) :
          List Line) : Multiset Line) ∧
      (dataLines (mergeFilesParallel S1 directory1 .writable pfx outputFileName)).map
          extractTimestamp =
        (dataLines (mergeFilesParallel S2 directory2 .writable pfx outputFileName)).map
          extractTimestamp := by
  rw [dataLines_writable, dataLines_writable]
  have hp := timestamps_eq_of_perm S1 S2 .writable .writable pfx pfx outputFileName
    outputFileName (acceptedLines_perm pfx h)
  exact ⟨Multiset.coe_eq_coe.mpr hp.1, hp.2⟩

/-- Witness of C16: two files with a line of the same timestamp 5000 each, enumerated in the
two possible orders and sorted by two different sorts. -/
theorem enumeration_order_irrelevant_witness :
    ((dataLines (mergeFilesParallel insertionSortAlgorithm
        [⟨"Master_a".toList, true, some "1\t1\t5\t5000\n".toList⟩,
          ⟨"Master_b".toList, true, some "2\t2\t5\t5000\n".toList⟩] .writable
        "Master_".toList "merged_MASTER.txt".toList) : List Line) : Multiset Line) =
        ((dataLines (mergeFilesParallel reverseInsertionSortAlgorithm
          [⟨"Master_b".toList, true, some "2\t2\t5\t5000\n".toList⟩,
            ⟨"Master_a".toList, true, some "1\t1\t5\t5000\n".toList⟩] .writable
          "Master_".toList "merged_MASTER.txt".toList) : List Line) : Multiset Line) ∧
      (dataLines (mergeFilesParallel insertionSortAlgorithm
        [⟨"Master_a".toList, true, some "1\t1\t5\t5000\n".toList⟩,
          ⟨"Master_b".toList, true, some "2\t2\t5\t5000\n".toList⟩] .writable
        "Master_".toList "merged_MASTER.txt".toList)).map extractTimestamp =
        (dataLines (mergeFilesParallel reverseInsertionSortAlgorithm
          [⟨"Master_b".toList, true, some "2\t2\t5\t5000\n".toList⟩,
            ⟨"Master_a".toList, true, some "1\t1\t5\t5000\n".toList⟩] .writable
          "Master_".toList "merged_MASTER.txt".toList)).map extractTimestamp :=
  enumeration_order_irrelevant insertionSortAlgorithm reverseInsertionSortAlgorithm
    [⟨"Master_a".toList, true, some "1\t1\t5\t5000\n".toList⟩,
      ⟨"Master_b".toList, true, some "2\t2\t5\t5000\n".toList⟩]
    [⟨"Master_b".toList, true, some "2\t2\t5\t5000\n".toList⟩,
      ⟨"Master_a".toList, true, some "1\t1\t5\t5000\n".toList⟩]
    "Master_".toList "merged_MASTER.txt".toList (List.Perm.swap _ _ _)

/-- C17: the test `name.find(prefix) == 0` holds exactly when the name begins with the
prefix, character for character, so an entry is selected exactly when it is a regular file
whose name begins with the prefix; a name that holds the prefix only further on, or in
another case, is not selected. -/
theorem prefix_selection (pfx : List Char) (entry : DirEntry) :
    (find entry.filename pfx = some 0 ↔ pfx <+: entry.filename) ∧
      (selects pfx entry = true ↔ entry.is_regular_file = true ∧ pfx <+: entry.filename) ∧
      selects "Master_".toList ⟨"xMaster_a".toList, true, entry.content⟩ = false ∧
      selects "Master_".toList ⟨"master_a".toList, true, entry.content⟩ = false := by
  refine ⟨find_eq_zero_iff _ _, ?_, rfl, rfl⟩
  simp [selects, find_eq_zero_iff]

/-- C18: the header constant fails the test of the loop by itself: its field 3 is
"TIMESTAMP_LSB", its timestamp is -1, below the minimum, although it contains "ASIC"; so
`processFile` with the header test taken out returns the same sequence as `processFile`, for
every file. -/
theorem header_test_redundant (file : Option (List Char)) :
    field EXPECTED_HEADER 3 = some "TIMESTAMP_LSB".toList ∧
      extractTimestamp EXPECTED_HEADER = -1 ∧
      (find EXPECTED_HEADER "ASIC".toList).isSome = true ∧
      "ASIC".toList <:+: EXPECTED_HEADER ∧
      processFileWithoutHeaderTest file = processFile file := by
  refine ⟨by decide, by decide, by decide, (find_isSome_iff _ _).mp (by decide), ?_⟩
  cases file with
  | none => rfl
  | some content => exact processLinesWithoutHeaderTest_eq _

/-- C19: the comparator of the sort, `extractTimestamp(a) < extractTimestamp(b)`, is a strict
weak ordering on all lines: it is irreflexive, asymmetric and transitive, two lines are
incomparable exactly when their extracted timestamps are equal, and incomparability is
transitive; this is what the contract of the sort requires. -/
theorem comparator_strict_weak_ordering :
    (∀ a, byTimestamp a a = false) ∧
      (∀ a b, byTimestamp a b = true → byTimestamp b a = false) ∧
      (∀ a b c, byTimestamp a b = true → byTimestamp b c = true → byTimestamp a c = true) ∧
      (∀ a b, (byTimestamp a b = false ∧ byTimestamp b a = false) ↔
        extractTimestamp a = extractTimestamp b) ∧
      (∀ a b c, (byTimestamp a b = false ∧ byTimestamp b a = false) →
        (byTimestamp b c = false ∧ byTimestamp c b = false) →
        (byTimestamp a c = false ∧ byTimestamp c a = false)) ∧
      StrictWeakOrdering byTimestamp := by
  refine ⟨?_, ?_, ?_, ?_, ?_, byTimestamp_strictWeakOrdering⟩
  · intro a
    simp [byTimestamp]
  · intro a b
    simp only [byTimestamp, decide_eq_true_eq, decide_eq_false_iff_not, not_lt]
    exact le_of_lt
  · intro a b c
    simp only [byTimestamp, decide_eq_true_eq]
    exact lt_trans
  · intro a b
    simp only [byTimestamp, decide_eq_false_iff_not, not_lt]
    constructor
    · rintro ⟨h1, h2⟩
      exact le_antisymm h2 h1
    · intro h
      exact ⟨le_of_eq h.symm, le_of_eq h⟩
  · intro a b c
    simp only [byTimestamp, decide_eq_false_iff_not, not_lt]
    rintro ⟨h1, h2⟩ ⟨h3, h4⟩
    exact ⟨le_trans h3 h1, le_trans h2 h4⟩

end MergeOutputs
